import Mathlib

/-!
Verification of the `pg_util` library (Postgres utility helpers).

The development shallowly embeds the Go source:

* `BuildInsert` (insert.go): reflection-driven generation of a parameterized
  `INSERT` statement from a record value, with a process-wide statement cache
  keyed by (table, prefix, suffix, record type).  Records are modelled by the
  mutual inductives `GoField`/`GoStruct`; the reflection walk `scanStruct`
  mirrors the source's `scanStruct` closure (plain fields first, embedded
  structs depth-first afterwards).
* `InTransaction` (insert.go, pgx/v4 variant, and the earlier variant kept in
  the repository): begin/commit/rollback orchestration around a user function,
  modelled as a pure function of the begin/commit outcomes and the user
  function's outcome (normal return or panic).
* `Listen` (listen.go, pgx/v4 variant): the notification listener.  The
  synchronous part is a function of the parse/connect/subscribe outcomes; the
  receiver goroutine, the dispatch loop (with its debounce register) and the
  reconnect supervisor are modelled as trace-producing step functions over
  explicit event lists, with callback invocations recorded as `Event`s.
-/

/-! ### Values carried by record fields (reflection model)

`GoValue.vnilPtr` stands for a nil pointer value (`v.Type().Kind() ==
 reflect.Ptr && v.IsNil()` in the source); `sprintGo` models `fmt.Sprint`. -/

inductive GoValue where
  | vstr (s : String)
  | vint (n : Int)
  | vnilPtr
deriving DecidableEq

def sprintGo : GoValue → String
  | .vstr s => s
  | .vint n => toString n
  | .vnilPtr => "<nil>"

/- A record type with values: a Go struct as seen by `reflect`.  A field is
either a plain (non-anonymous) field carrying a value, or an anonymous
embedded struct.  Both carry the raw `db` struct tag (`""` when absent). -/
mutual
inductive GoField where
  | plain (goName tag : String) (value : GoValue)
  | embedded (tag : String) (sub : GoStruct)
deriving DecidableEq
inductive GoStruct where
  | nil
  | cons (f : GoField) (rest : GoStruct)
deriving DecidableEq
end

/-- `strings.Split(s, ",")` on the characters of the tag.  Like Go's
`strings.Split`, the empty string yields `[""]`. -/
def splitCommaAux : List Char → List (List Char)
  | [] => [[]]
  | c :: rest =>
    match splitCommaAux rest with
    | [] => [[c]]
    | h :: t => if c = ',' then [] :: h :: t else (c :: h) :: t

def splitComma (s : String) : List String := (splitCommaAux s.data).map List.asString

/-- `split[0]` of the source: the name part of a `db` tag. -/
def tagNameOf (tag : String) : String := (splitComma tag).headD ""

/-- Whether some `split[1:]` element equals `"string"` (the `,string` option). -/
def hasStringOpt (tag : String) : Bool := ((splitComma tag).drop 1).contains "string"

/-- An element of the returned argument slice.  `text` is a value passed
through `fmt.Sprint`; `nilStringPtr` is the `(*string)(nil)` the source
substitutes for a nil pointer under the `,string` option. -/
inductive Arg where
  | raw (v : GoValue)
  | text (s : String)
  | nilStringPtr
deriving DecidableEq

/-- The `,string` conversion of a field value (source: `if convertToString`). -/
def mkArg (tag : String) (v : GoValue) : Arg :=
  if hasStringOpt tag then
    match v with
    | .vnilPtr => Arg.nilStringPtr
    | _ => Arg.text (sprintGo v)
  else Arg.raw v

/-- State threaded through the reflection walk: the statement builder `w`, the
deduplication map (as an insertion-ordered list of column names) and the
argument slice. -/
structure ScanState where
  w : String
  dedup : List String
  args : List Arg
deriving DecidableEq

/-- First pass of the source's `scanStruct` closure over one struct's fields:
plain fields are emitted (column text only when `cached` is false), anonymous
embedded fields are deferred to the second pass. -/
def processPlain (cached : Bool) : GoStruct → ScanState → ScanState
  | .nil, st => st
  | .cons (.embedded _ _) rest, st => processPlain cached rest st
  | .cons (.plain goName tag v) rest, st =>
    let tagName := tagNameOf tag
    if tagName = "-" then processPlain cached rest st
    else
      let name := if tagName = "" then goName else tagName
      if st.dedup.contains name then processPlain cached rest st
      else
        let w :=
          if cached then st.w
          else
            st.w ++ (if st.dedup.length ≠ 0 then "," else "")
              ++ (if tagName ≠ "" then "\"" ++ name ++ "\"" else name)
        processPlain cached rest
          { w := w, dedup := st.dedup ++ [name], args := st.args ++ [mkArg tag v] }

/- Second pass: recurse into each embedded struct, in field order.  An
embedded field whose tag name part is `-` was dropped by the `continue` in the
source's tag switch before the anonymous check, so it is not scanned.
`scanEmbeddedOne` inlines the recursive `scanStruct` call of the source
(plain pass, then embedded pass, on the embedded struct's fields). -/
mutual
def scanEmbedded (cached : Bool) : GoStruct → ScanState → ScanState
  | .nil, st => st
  | .cons f rest, st => scanEmbedded cached rest (scanEmbeddedOne cached f st)

def scanEmbeddedOne (cached : Bool) : GoField → ScanState → ScanState
  | .plain _ _ _, st => st
  | .embedded tag sub, st =>
    if tagNameOf tag = "-" then st
    else scanEmbedded cached sub (processPlain cached sub st)
end

/-- The source's `scanStruct` closure on one struct: plain fields first, then
the collected embedded structs depth-first. -/
def scanStruct (cached : Bool) (fields : GoStruct) (st : ScanState) : ScanState :=
  scanEmbedded cached fields (processPlain cached fields st)

/-- Options of `BuildInsert`.  `pre`/`suffix` are the source's `Prefix` and
`Suffix` statement text options. -/
structure InsertOpts where
  table : String
  data : GoStruct
  pre : String
  suffix : String
deriving DecidableEq

/- Erase field values, keeping names, tags and structure: the part of a
record `reflect.Type` identity that the cache key depends on. -/
mutual
def eraseVal : GoField → GoField
  | .plain goName tag _ => .plain goName tag (GoValue.vint 0)
  | .embedded tag sub => .embedded tag (eraseValS sub)
def eraseValS : GoStruct → GoStruct
  | .nil => .nil
  | .cons f rest => .cons (eraseVal f) (eraseValS rest)
end

/-- The `insertCache` key of the source: table, prefix, suffix and the
`reflect.Type` of the data (modelled as the value-erased record). -/
def mkKey (o : InsertOpts) : String × String × String × GoStruct :=
  (o.table, o.pre, o.suffix, eraseValS o.data)

def cacheLoad (k : String × String × String × GoStruct) :
    List ((String × String × String × GoStruct) × String) → Option String
  | [] => none
  | (k', v) :: rest => if k = k' then some v else cacheLoad k rest

def cacheStore (k : String × String × String × GoStruct) (v : String)
    (c : List ((String × String × String × GoStruct) × String)) :
    List ((String × String × String × GoStruct) × String) := (k, v) :: c

/-- `$1,...,$n`, comma separated, as written by the placeholder loop (the
source's single-digit fast path writes the same decimal digit characters as
`strconv.AppendUint`). -/
def mkPlaceholders (n : Nat) : String :=
  (List.range n).foldl (fun w i => (if i ≠ 0 then w ++ "," else w) ++ "$" ++ toString (i + 1)) ""

/-- The statement text written before the column list: optional prefix and
`INSERT INTO "table" (`. -/
def insertHeader (o : InsertOpts) : String :=
  (if o.pre ≠ "" then o.pre ++ " " else "") ++ "INSERT INTO \"" ++ o.table ++ "\" ("

/-- The statement text generated on a cache miss. -/
def genSql (o : InsertOpts) : String :=
  let st := scanStruct false o.data ⟨insertHeader o, [], []⟩
  st.w ++ ") VALUES (" ++ mkPlaceholders st.dedup.length ++ ")"
    ++ (if o.suffix ≠ "" then " " ++ o.suffix else "")

/-- The argument slice (recomputed on every call; on a cached call the walk
runs with column writing suppressed). -/
def genArgs (o : InsertOpts) : List Arg :=
  (scanStruct false o.data ⟨insertHeader o, [], []⟩).args

/-- Insertion-ordered list of emitted (deduplicated) column names. -/
def dedupOf (o : InsertOpts) : List String :=
  (scanStruct false o.data ⟨insertHeader o, [], []⟩).dedup

structure BuildResult where
  sql : String
  args : List Arg
  cache : List ((String × String × String × GoStruct) × String)

/-- `BuildInsert` with the process-wide `insertCache` passed explicitly: load
the cached text when present (the walk then only rebuilds `dedup`/`args`),
otherwise generate and store the text. -/
def BuildInsert (cache : List ((String × String × String × GoStruct) × String))
    (o : InsertOpts) : BuildResult :=
  match cacheLoad (mkKey o) cache with
  | some sql => { sql := sql, args := (scanStruct true o.data ⟨"", [], []⟩).args, cache := cache }
  | none =>
    { sql := genSql o
      args := genArgs o
      cache := cacheStore (mkKey o) (genSql o) cache }

example :
    (BuildInsert [] ⟨"t1", .cons (.plain "F1" "" (.vstr "aaa")) (.cons (.plain "F2" "" (.vint 1)) .nil), "", ""⟩).sql
      = "INSERT INTO \"t1\" (F1,F2) VALUES ($1,$2)" := by decide

example :
    (BuildInsert [] ⟨"t1", .cons (.plain "F1" "field_1" (.vstr "aaa")) (.cons (.plain "F2" ",string" (.vint 1)) .nil), "", ""⟩).sql
      = "INSERT INTO \"t1\" (\"field_1\",F2) VALUES ($1,$2)" := by decide

example :
    (BuildInsert [] ⟨"t1", .cons (.plain "F1" "field_1" (.vstr "aaa")) (.cons (.plain "F2" ",string" (.vint 1)) .nil), "", ""⟩).args
      = [Arg.raw (.vstr "aaa"), Arg.text "1"] := by decide

/-! ### Lemmas about the reflection walk -/

/-- Unfolding of `processPlain` on a plain field (definitional). -/
theorem processPlain_cons_plain (c : Bool) (g t : String) (v : GoValue)
    (rest : GoStruct) (st : ScanState) :
    processPlain c (.cons (.plain g t v) rest) st =
      (if tagNameOf t = "-" then processPlain c rest st
       else
        let name := if tagNameOf t = "" then g else tagNameOf t
        if st.dedup.contains name then processPlain c rest st
        else
          processPlain c rest
            { w := if c then st.w
                else st.w ++ (if st.dedup.length ≠ 0 then "," else "")
                  ++ (if tagNameOf t ≠ "" then "\"" ++ name ++ "\"" else name),
              dedup := st.dedup ++ [name], args := st.args ++ [mkArg t v] }) := rfl

/-- The `cached` flag and the builder contents influence neither the
deduplication list nor the argument slice (first pass). -/
theorem processPlain_cd (c c' : Bool) :
    ∀ (fs : GoStruct) (st st' : ScanState), st.dedup = st'.dedup → st.args = st'.args →
      (processPlain c fs st).dedup = (processPlain c' fs st').dedup ∧
      (processPlain c fs st).args = (processPlain c' fs st').args
  | .nil, st, st', hd, ha => ⟨hd, ha⟩
  | .cons (.embedded t sub) rest, st, st', hd, ha => processPlain_cd c c' rest st st' hd ha
  | .cons (.plain g t v) rest, st, st', hd, ha => by
      rw [processPlain_cons_plain, processPlain_cons_plain]
      by_cases h1 : tagNameOf t = "-"
      · simp only [if_pos h1]
        exact processPlain_cd c c' rest st st' hd ha
      · simp only [if_neg h1, hd]
        by_cases h2 : st'.dedup.contains (if tagNameOf t = "" then g else tagNameOf t)
        · simp only [if_pos h2]
          exact processPlain_cd c c' rest st st' hd ha
        · simp only [if_neg h2]
          exact processPlain_cd c c' rest _ _ (by simp [hd]) (by simp [ha])

/- The `cached` flag and the builder contents influence neither the
deduplication list nor the argument slice (second pass / whole walk). -/
mutual
theorem scanEmbedded_cd (c c' : Bool) :
    ∀ (fs : GoStruct) (st st' : ScanState), st.dedup = st'.dedup → st.args = st'.args →
      (scanEmbedded c fs st).dedup = (scanEmbedded c' fs st').dedup ∧
      (scanEmbedded c fs st).args = (scanEmbedded c' fs st').args
  | .nil, st, st', hd, ha => ⟨hd, ha⟩
  | .cons f rest, st, st', hd, ha =>
      scanEmbedded_cd c c' rest _ _ (scanEmbeddedOne_cd c c' f st st' hd ha).1
        (scanEmbeddedOne_cd c c' f st st' hd ha).2

theorem scanEmbeddedOne_cd (c c' : Bool) :
    ∀ (f : GoField) (st st' : ScanState), st.dedup = st'.dedup → st.args = st'.args →
      (scanEmbeddedOne c f st).dedup = (scanEmbeddedOne c' f st').dedup ∧
      (scanEmbeddedOne c f st).args = (scanEmbeddedOne c' f st').args
  | .plain _ _ _, st, st', hd, ha => ⟨hd, ha⟩
  | .embedded t sub, st, st', hd, ha => by
      by_cases h1 : tagNameOf t = "-"
      · simpa [scanEmbeddedOne, h1] using ⟨hd, ha⟩
      · have hp := processPlain_cd c c' sub st st' hd ha
        have h2 := scanEmbedded_cd c c' sub _ _ hp.1 hp.2
        simpa [scanEmbeddedOne, h1] using h2
end

theorem scanStruct_cd (c c' : Bool) (fs : GoStruct) (st st' : ScanState)
    (hd : st.dedup = st'.dedup) (ha : st.args = st'.args) :
    (scanStruct c fs st).dedup = (scanStruct c' fs st').dedup ∧
    (scanStruct c fs st).args = (scanStruct c' fs st').args := by
  have hp := processPlain_cd c c' fs st st' hd ha
  exact scanEmbedded_cd c c' fs _ _ hp.1 hp.2

/-- The builder text and the deduplication list depend only on the record's
shape (names, tags, structure), not on the field values (first pass). -/
theorem processPlain_shape (c : Bool) :
    ∀ (fs : GoStruct) (st st' : ScanState), st.w = st'.w → st.dedup = st'.dedup →
      (processPlain c fs st).w = (processPlain c (eraseValS fs) st').w ∧
      (processPlain c fs st).dedup = (processPlain c (eraseValS fs) st').dedup
  | .nil, st, st', hw, hd => ⟨hw, hd⟩
  | .cons (.embedded t sub) rest, st, st', hw, hd => by
      have h := processPlain_shape c rest st st' hw hd
      simpa [eraseValS, eraseVal, processPlain] using h
  | .cons (.plain g t v) rest, st, st', hw, hd => by
      have hv : eraseValS (.cons (.plain g t v) rest)
          = .cons (.plain g t (GoValue.vint 0)) (eraseValS rest) := by
        simp [eraseValS, eraseVal]
      rw [hv, processPlain_cons_plain, processPlain_cons_plain]
      by_cases h1 : tagNameOf t = "-"
      · simp only [if_pos h1]
        exact processPlain_shape c rest st st' hw hd
      · simp only [if_neg h1, hd]
        by_cases h2 : st'.dedup.contains (if tagNameOf t = "" then g else tagNameOf t)
        · simp only [if_pos h2]
          exact processPlain_shape c rest st st' hw hd
        · simp only [if_neg h2]
          exact processPlain_shape c rest _ _ (by simp [hw, hd]) (by simp [hd])

/- Same fact for the second pass and the whole walk. -/
mutual
theorem scanEmbedded_shape (c : Bool) :
    ∀ (fs : GoStruct) (st st' : ScanState), st.w = st'.w → st.dedup = st'.dedup →
      (scanEmbedded c fs st).w = (scanEmbedded c (eraseValS fs) st').w ∧
      (scanEmbedded c fs st).dedup = (scanEmbedded c (eraseValS fs) st').dedup
  | .nil, st, st', hw, hd => ⟨hw, hd⟩
  | .cons f rest, st, st', hw, hd => by
      have h1 := scanEmbeddedOne_shape c f st st' hw hd
      have h2 := scanEmbedded_shape c rest _ _ h1.1 h1.2
      simpa [eraseValS] using h2

theorem scanEmbeddedOne_shape (c : Bool) :
    ∀ (f : GoField) (st st' : ScanState), st.w = st'.w → st.dedup = st'.dedup →
      (scanEmbeddedOne c f st).w = (scanEmbeddedOne c (eraseVal f) st').w ∧
      (scanEmbeddedOne c f st).dedup = (scanEmbeddedOne c (eraseVal f) st').dedup
  | .plain g t v, st, st', hw, hd => by
      simpa [eraseVal, scanEmbeddedOne] using And.intro hw hd
  | .embedded t sub, st, st', hw, hd => by
      by_cases h1 : tagNameOf t = "-"
      · simpa [scanEmbeddedOne, eraseVal, h1] using And.intro hw hd
      · have hp := processPlain_shape c sub st st' hw hd
        have h2 := scanEmbedded_shape c sub _ _ hp.1 hp.2
        simpa [scanEmbeddedOne, eraseVal, h1] using h2
end

theorem scanStruct_shape (c : Bool) (fs : GoStruct) (st st' : ScanState)
    (hw : st.w = st'.w) (hd : st.dedup = st'.dedup) :
    (scanStruct c fs st).w = (scanStruct c (eraseValS fs) st').w ∧
    (scanStruct c fs st).dedup = (scanStruct c (eraseValS fs) st').dedup := by
  have hp := processPlain_shape c fs st st' hw hd
  exact scanEmbedded_shape c fs _ _ hp.1 hp.2

/-- Each emitted column adds exactly one argument: the argument slice grows in
lock step with the deduplication list (first pass). -/
theorem processPlain_len (c : Bool) :
    ∀ (fs : GoStruct) (st : ScanState),
      (processPlain c fs st).args.length + st.dedup.length =
      (processPlain c fs st).dedup.length + st.args.length
  | .nil, st => Nat.add_comm _ _
  | .cons (.embedded t sub) rest, st => processPlain_len c rest st
  | .cons (.plain g t v) rest, st => by
      rw [processPlain_cons_plain]
      by_cases h1 : tagNameOf t = "-"
      · simp only [if_pos h1]
        exact processPlain_len c rest st
      · simp only [if_neg h1]
        by_cases h2 : st.dedup.contains (if tagNameOf t = "" then g else tagNameOf t)
        · simp only [if_pos h2]
          exact processPlain_len c rest st
        · simp only [if_neg h2]
          have h := processPlain_len c rest
            { w := if c then st.w
                else st.w ++ (if st.dedup.length ≠ 0 then "," else "")
                  ++ (if tagNameOf t ≠ "" then
                        "\"" ++ (if tagNameOf t = "" then g else tagNameOf t) ++ "\""
                      else if tagNameOf t = "" then g else tagNameOf t),
              dedup := st.dedup ++ [if tagNameOf t = "" then g else tagNameOf t],
              args := st.args ++ [mkArg t v] }
          simp only [List.length_append, List.length_cons, List.length_nil] at h ⊢
          omega

/- Same fact for the second pass. -/
mutual
theorem scanEmbedded_len (c : Bool) :
    ∀ (fs : GoStruct) (st : ScanState),
      (scanEmbedded c fs st).args.length + st.dedup.length =
      (scanEmbedded c fs st).dedup.length + st.args.length
  | .nil, st => Nat.add_comm _ _
  | .cons f rest, st => by
      have h1 := scanEmbeddedOne_len c f st
      have h2 := scanEmbedded_len c rest (scanEmbeddedOne c f st)
      show (scanEmbedded c rest (scanEmbeddedOne c f st)).args.length + st.dedup.length
        = (scanEmbedded c rest (scanEmbeddedOne c f st)).dedup.length + st.args.length
      omega

theorem scanEmbeddedOne_len (c : Bool) :
    ∀ (f : GoField) (st : ScanState),
      (scanEmbeddedOne c f st).args.length + st.dedup.length =
      (scanEmbeddedOne c f st).dedup.length + st.args.length
  | .plain _ _ _, st => Nat.add_comm _ _
  | .embedded t sub, st => by
      by_cases h1 : tagNameOf t = "-"
      · simp only [scanEmbeddedOne, if_pos h1]
        omega
      · have hp := processPlain_len c sub st
        have h2 := scanEmbedded_len c sub (processPlain c sub st)
        simp only [scanEmbeddedOne, if_neg h1]
        omega
end

theorem scanStruct_len (c : Bool) (fs : GoStruct) (st : ScanState) :
    (scanStruct c fs st).args.length + st.dedup.length =
    (scanStruct c fs st).dedup.length + st.args.length := by
  have hp := processPlain_len c fs st
  have h2 := scanEmbedded_len c fs (processPlain c fs st)
  show (scanEmbedded c fs (processPlain c fs st)).args.length + st.dedup.length
    = (scanEmbedded c fs (processPlain c fs st)).dedup.length + st.args.length
  omega

/-- The deduplication list never acquires a duplicate name (first pass). -/
theorem processPlain_nodup (c : Bool) :
    ∀ (fs : GoStruct) (st : ScanState), st.dedup.Nodup → (processPlain c fs st).dedup.Nodup
  | .nil, _, h => h
  | .cons (.embedded t sub) rest, st, h => processPlain_nodup c rest st h
  | .cons (.plain g t v) rest, st, h => by
      rw [processPlain_cons_plain]
      by_cases h1 : tagNameOf t = "-"
      · simp only [if_pos h1]
        exact processPlain_nodup c rest st h
      · simp only [if_neg h1]
        by_cases h2 : st.dedup.contains (if tagNameOf t = "" then g else tagNameOf t)
        · simp only [if_pos h2]
          exact processPlain_nodup c rest st h
        · simp only [if_neg h2]
          apply processPlain_nodup c rest
          simp only [List.nodup_append, List.nodup_cons, List.not_mem_nil,
            not_false_eq_true, List.nodup_nil, and_true, true_and]
          refine ⟨h, ?_⟩
          intro a ha hmem
          rcases List.mem_singleton.mp hmem with rfl
          exact h2 (List.elem_eq_true_of_mem ha)

/- Same fact for the second pass. -/
mutual
theorem scanEmbedded_nodup (c : Bool) :
    ∀ (fs : GoStruct) (st : ScanState), st.dedup.Nodup → (scanEmbedded c fs st).dedup.Nodup
  | .nil, _, h => h
  | .cons f rest, st, h => scanEmbedded_nodup c rest _ (scanEmbeddedOne_nodup c f st h)

theorem scanEmbeddedOne_nodup (c : Bool) :
    ∀ (f : GoField) (st : ScanState), st.dedup.Nodup → (scanEmbeddedOne c f st).dedup.Nodup
  | .plain _ _ _, _, h => h
  | .embedded t sub, st, h => by
      by_cases h1 : tagNameOf t = "-"
      · simpa [scanEmbeddedOne, h1] using h
      · simp only [scanEmbeddedOne, if_neg h1]
        exact scanEmbedded_nodup c sub _ (processPlain_nodup c sub st h)
end

theorem scanStruct_nodup (c : Bool) (fs : GoStruct) (st : ScanState)
    (h : st.dedup.Nodup) : (scanStruct c fs st).dedup.Nodup :=
  scanEmbedded_nodup c fs _ (processPlain_nodup c fs st h)

/-! ### Lemmas about skipped (`db:"-"`) fields -/

def GoStruct.append : GoStruct → GoStruct → GoStruct
  | .nil, g => g
  | .cons f rest, g => .cons f (GoStruct.append rest g)

/-- The raw `db` tag of a field. -/
def gfTag : GoField → String
  | .plain _ t _ => t
  | .embedded t _ => t

/-- A field whose tag name part is `-` contributes nothing to the first pass. -/
theorem processPlain_skip (c : Bool) (f : GoField) (hf : tagNameOf (gfTag f) = "-") :
    ∀ (before after : GoStruct) (st : ScanState),
      processPlain c (before.append (.cons f after)) st =
      processPlain c (before.append after) st
  | .nil, after, st => by
      cases f with
      | plain g t v =>
          rw [show GoStruct.append .nil (.cons (.plain g t v) after) = .cons (.plain g t v) after from rfl,
            processPlain_cons_plain]
          simp only [gfTag] at hf
          simp only [if_pos hf]
          rfl
      | embedded t sub => rfl
  | .cons f0 before', after, st => by
      cases f0 with
      | embedded t sub =>
          show processPlain c (before'.append (.cons f after)) st
            = processPlain c (before'.append after) st
          exact processPlain_skip c f hf before' after st
      | plain g t v =>
          show processPlain c (.cons (.plain g t v) (before'.append (.cons f after))) st
            = processPlain c (.cons (.plain g t v) (before'.append after)) st
          rw [processPlain_cons_plain, processPlain_cons_plain]
          by_cases h1 : tagNameOf t = "-"
          · simp only [if_pos h1]
            exact processPlain_skip c f hf before' after st
          · simp only [if_neg h1]
            by_cases h2 : st.dedup.contains (if tagNameOf t = "" then g else tagNameOf t)
            · simp only [if_pos h2]
              exact processPlain_skip c f hf before' after st
            · simp only [if_neg h2]
              exact processPlain_skip c f hf before' after _

/-- A field whose tag name part is `-` contributes nothing to the second pass
either: a plain field is ignored there anyway, and an embedded one was dropped
by the tag switch before being collected. -/
theorem scanEmbedded_skip (c : Bool) (f : GoField) (hf : tagNameOf (gfTag f) = "-") :
    ∀ (before after : GoStruct) (st : ScanState),
      scanEmbedded c (before.append (.cons f after)) st =
      scanEmbedded c (before.append after) st
  | .nil, after, st => by
      show scanEmbedded c (.cons f after) st = scanEmbedded c after st
      have h : scanEmbeddedOne c f st = st := by
        cases f with
        | plain g t v => rfl
        | embedded t sub =>
            simp only [gfTag] at hf
            simp [scanEmbeddedOne, hf]
      rw [show scanEmbedded c (.cons f after) st
        = scanEmbedded c after (scanEmbeddedOne c f st) from rfl, h]
  | .cons f0 before', after, st => by
      show scanEmbedded c (before'.append (.cons f after)) (scanEmbeddedOne c f0 st)
        = scanEmbedded c (before'.append after) (scanEmbeddedOne c f0 st)
      exact scanEmbedded_skip c f hf before' after _

/-- A field whose tag name part is `-` contributes nothing to the whole walk. -/
theorem scanStruct_skip (c : Bool) (f : GoField) (hf : tagNameOf (gfTag f) = "-")
    (before after : GoStruct) (st : ScanState) :
    scanStruct c (before.append (.cons f after)) st =
    scanStruct c (before.append after) st := by
  unfold scanStruct
  rw [processPlain_skip c f hf before after st, scanEmbedded_skip c f hf before after _]

/-! ### The statement cache -/

/-- Two records of the same cache key (same table, prefix, suffix and record
type) generate the same statement text and the same column order. -/
theorem key_inv (o o' : InsertOpts) (h : mkKey o = mkKey o') :
    genSql o = genSql o' ∧ dedupOf o = dedupOf o' := by
  have h' := h
  simp only [mkKey, Prod.mk.injEq] at h'
  obtain ⟨ht, hp, hs, hdata⟩ := h'
  have hh : insertHeader o = insertHeader o' := by simp [insertHeader, ht, hp]
  have h1 := scanStruct_shape false o.data ⟨insertHeader o, [], []⟩ ⟨insertHeader o', [], []⟩ hh rfl
  rw [hdata] at h1
  have h2 := scanStruct_shape false o'.data ⟨insertHeader o', [], []⟩ ⟨insertHeader o', [], []⟩ rfl rfl
  have hw : (scanStruct false o.data ⟨insertHeader o, [], []⟩).w
      = (scanStruct false o'.data ⟨insertHeader o', [], []⟩).w := h1.1.trans h2.1.symm
  have hd : (scanStruct false o.data ⟨insertHeader o, [], []⟩).dedup
      = (scanStruct false o'.data ⟨insertHeader o', [], []⟩).dedup := h1.2.trans h2.2.symm
  constructor
  · simp only [genSql]
    rw [hw, hd, hs]
  · simp only [dedupOf]
    exact hd

/-- Every entry of the cache is the generated text for its key: the invariant
the source's `insertCache` maintains (only generated texts are ever stored). -/
def CacheGood (cache : List ((String × String × String × GoStruct) × String)) : Prop :=
  ∀ k v, cacheLoad k cache = some v → ∀ o : InsertOpts, mkKey o = k → v = genSql o

theorem cacheGood_nil : CacheGood [] := fun _ _ h => Option.noConfusion h

/-- On a well-formed cache, `BuildInsert` returns the generated statement text
and the recomputed argument slice, and keeps the cache well formed. -/
theorem buildInsert_char (cache : List ((String × String × String × GoStruct) × String))
    (o : InsertOpts) (hg : CacheGood cache) :
    (BuildInsert cache o).sql = genSql o ∧ (BuildInsert cache o).args = genArgs o ∧
    CacheGood (BuildInsert cache o).cache := by
  cases hload : cacheLoad (mkKey o) cache with
  | none =>
      refine ⟨?_, ?_, ?_⟩ <;> simp only [BuildInsert, hload]
      · intro k v hkv o' hko
        by_cases hk : k = mkKey o
        · simp only [cacheStore, cacheLoad, if_pos hk] at hkv
          obtain rfl := (Option.some.injEq _ _).mp hkv.symm |>.symm
          have : mkKey o = mkKey o' := by rw [hko, hk]
          exact ((key_inv o o' this).1).symm ▸ rfl
        · simp only [cacheStore, cacheLoad, if_neg hk] at hkv
          exact hg k v hkv o' hko
  | some v =>
      have hv : v = genSql o := hg (mkKey o) v hload o rfl
      refine ⟨?_, ?_, ?_⟩ <;> simp only [BuildInsert, hload]
      · exact hv
      · exact (scanStruct_cd true false o.data ⟨"", [], []⟩ ⟨insertHeader o, [], []⟩ rfl rfl).2
      · exact hg

/-! ### Claim theorems: BuildInsert -/

/-- C8, counterexample: a field whose `db` tag value is `"skip"` is NOT
omitted — `BuildInsert` emits it as a quoted column named `skip` and keeps its
value in the argument list.  (The tag value that omits a field is `"-"`.) -/
theorem skip_tag_value_is_not_omitted :
    (BuildInsert [] ⟨"t1", .cons (.plain "F1" "skip" (.vstr "aaa")) .nil, "", ""⟩).sql
        = "INSERT INTO \"t1\" (\"skip\") VALUES ($1)" ∧
    (BuildInsert [] ⟨"t1", .cons (.plain "F1" "skip" (.vstr "aaa")) .nil, "", ""⟩).args
        = [Arg.raw (.vstr "aaa")] := by decide

/-- C8 (amended): a field whose `db` tag's name part is `"-"` is omitted from
both the generated column list (the statement text is unchanged) and the
returned argument list. -/
theorem dash_tag_field_omitted (tb p s : String) (f : GoField)
    (before after : GoStruct) (hf : tagNameOf (gfTag f) = "-") :
    (BuildInsert [] ⟨tb, before.append (.cons f after), p, s⟩).sql =
      (BuildInsert [] ⟨tb, before.append after, p, s⟩).sql ∧
    (BuildInsert [] ⟨tb, before.append (.cons f after), p, s⟩).args =
      (BuildInsert [] ⟨tb, before.append after, p, s⟩).args := by
  have hscan : scanStruct false (before.append (.cons f after))
        ⟨insertHeader ⟨tb, before.append (.cons f after), p, s⟩, [], []⟩
      = scanStruct false (before.append after)
        ⟨insertHeader ⟨tb, before.append after, p, s⟩, [], []⟩ := by
    have hh : insertHeader ⟨tb, before.append (.cons f after), p, s⟩
        = insertHeader ⟨tb, before.append after, p, s⟩ := rfl
    rw [hh]
    exact scanStruct_skip false f hf before after _
  constructor
  · show genSql _ = genSql _
    simp only [genSql, hscan]
  · show genArgs _ = genArgs _
    simp only [genArgs, hscan]

/-- Witness for `dash_tag_field_omitted`: dropping the `db:"-"` field `F3`
of the test's "with skipped field" case changes neither text nor arguments. -/
theorem dash_tag_field_omitted_witness :
    tagNameOf (gfTag (.plain "F3" "-" (.vint 1))) = "-" ∧
    ((BuildInsert [] ⟨"t1", GoStruct.append
          (.cons (.plain "F1" "" (.vstr "aaa")) (.cons (.plain "F2" "" (.vint 1)) .nil))
          (.cons (.plain "F3" "-" (.vint 1)) .nil), "", ""⟩).sql =
      (BuildInsert [] ⟨"t1", GoStruct.append
          (.cons (.plain "F1" "" (.vstr "aaa")) (.cons (.plain "F2" "" (.vint 1)) .nil))
          .nil, "", ""⟩).sql ∧
    (BuildInsert [] ⟨"t1", GoStruct.append
          (.cons (.plain "F1" "" (.vstr "aaa")) (.cons (.plain "F2" "" (.vint 1)) .nil))
          (.cons (.plain "F3" "-" (.vint 1)) .nil), "", ""⟩).args =
      (BuildInsert [] ⟨"t1", GoStruct.append
          (.cons (.plain "F1" "" (.vstr "aaa")) (.cons (.plain "F2" "" (.vint 1)) .nil))
          .nil, "", ""⟩).args) :=
  ⟨by decide, dash_tag_field_omitted "t1" "" ""
    (.plain "F3" "-" (.vint 1))
    (.cons (.plain "F1" "" (.vstr "aaa")) (.cons (.plain "F2" "" (.vint 1)) .nil))
    .nil (by decide)⟩

/-- C9: `BuildInsert` is deterministic and caching-transparent.  After a first
call on a well-formed cache, a second call with the same cache key (identical
table, prefix, suffix and record shape) finds the stored text (a cache hit),
returns byte-identical statement text, the identical argument slice when the
record value is also identical, and the same column order; the column list is
duplicate-free, there is exactly one argument per distinct emitted column, and
the text carries one positional placeholder `$1..$n` per distinct column. -/
theorem buildInsert_cache_round_trip
    (c0 : List ((String × String × String × GoStruct) × String))
    (o o2 : InsertOpts) (hg : CacheGood c0) (hk : mkKey o2 = mkKey o) :
    ((BuildInsert (BuildInsert c0 o).cache o2).sql = (BuildInsert c0 o).sql) ∧
    cacheLoad (mkKey o2) (BuildInsert c0 o).cache = some (BuildInsert c0 o).sql ∧
    (o2 = o → (BuildInsert (BuildInsert c0 o).cache o2).args = (BuildInsert c0 o).args) ∧
    dedupOf o2 = dedupOf o ∧
    (dedupOf o).Nodup ∧
    (BuildInsert c0 o).args.length = (dedupOf o).length ∧
    (BuildInsert c0 o).sql = (scanStruct false o.data ⟨insertHeader o, [], []⟩).w
      ++ ") VALUES (" ++ mkPlaceholders (dedupOf o).length ++ ")"
      ++ (if o.suffix ≠ "" then " " ++ o.suffix else "") := by
  obtain ⟨hsql1, hargs1, hgood1⟩ := buildInsert_char c0 o hg
  obtain ⟨hsql2, hargs2, -⟩ := buildInsert_char (BuildInsert c0 o).cache o2 hgood1
  refine ⟨?_, ?_, ?_, (key_inv o2 o hk).2, ?_, ?_, ?_⟩
  · rw [hsql2, hsql1]
    exact (key_inv o2 o hk).1
  · cases hload : cacheLoad (mkKey o) c0 with
    | none =>
        simp only [BuildInsert, hload, cacheStore, cacheLoad, if_pos hk]
    | some v =>
        simp only [BuildInsert, hload]
        rw [hk, hload]
  · intro he
    subst he
    rw [hargs2, hargs1]
  · exact scanStruct_nodup false o.data ⟨insertHeader o, [], []⟩ List.nodup_nil
  · rw [hargs1]
    have h := scanStruct_len false o.data ⟨insertHeader o, [], []⟩
    simpa [genArgs, dedupOf] using h
  · rw [hsql1]
    simp only [genSql, dedupOf]

/-- Witness for `buildInsert_cache_round_trip`: two records of the same shape
with different field values, starting from the empty cache. -/
theorem buildInsert_cache_round_trip_witness :
    CacheGood [] ∧
    mkKey ⟨"t1", .cons (.plain "F1" "" (.vstr "bbb")) (.cons (.plain "F2" "" (.vint 2)) .nil), "", ""⟩
      = mkKey ⟨"t1", .cons (.plain "F1" "" (.vstr "aaa")) (.cons (.plain "F2" "" (.vint 1)) .nil), "", ""⟩ ∧
    ((BuildInsert (BuildInsert []
        ⟨"t1", .cons (.plain "F1" "" (.vstr "aaa")) (.cons (.plain "F2" "" (.vint 1)) .nil), "", ""⟩).cache
        ⟨"t1", .cons (.plain "F1" "" (.vstr "bbb")) (.cons (.plain "F2" "" (.vint 2)) .nil), "", ""⟩).sql
      = (BuildInsert []
        ⟨"t1", .cons (.plain "F1" "" (.vstr "aaa")) (.cons (.plain "F2" "" (.vint 1)) .nil), "", ""⟩).sql) :=
  ⟨cacheGood_nil, by decide,
    (buildInsert_cache_round_trip []
      ⟨"t1", .cons (.plain "F1" "" (.vstr "aaa")) (.cons (.plain "F2" "" (.vint 1)) .nil), "", ""⟩
      ⟨"t1", .cons (.plain "F1" "" (.vstr "bbb")) (.cons (.plain "F2" "" (.vint 2)) .nil), "", ""⟩
      cacheGood_nil (by decide)).1⟩

/-- C10: a plain field whose `db` tag has an empty name part (e.g. `,string`)
is emitted under the Go field's own name, unquoted; in general the emitted
column text is wrapped in double quotes if and only if the tag's name part is
non-empty (first conjunct: the quote wrapping is exactly the
`tagNameOf tag ≠ ""` branch of the emitted text). -/
theorem column_quoting_iff_named_tag (g tag : String) (v : GoValue) (rest : GoStruct)
    (st : ScanState) (hdash : tagNameOf tag ≠ "-")
    (hdup : st.dedup.contains (if tagNameOf tag = "" then g else tagNameOf tag) = false) :
    (processPlain false (.cons (.plain g tag v) rest) st =
      processPlain false rest
        { w := st.w ++ (if st.dedup.length ≠ 0 then "," else "")
            ++ (if tagNameOf tag ≠ "" then
                  "\"" ++ (if tagNameOf tag = "" then g else tagNameOf tag) ++ "\""
                else g),
          dedup := st.dedup ++ [if tagNameOf tag = "" then g else tagNameOf tag],
          args := st.args ++ [mkArg tag v] }) ∧
    (tagNameOf tag = "" →
      processPlain false (.cons (.plain g tag v) rest) st =
        processPlain false rest
          { w := st.w ++ (if st.dedup.length ≠ 0 then "," else "") ++ g,
            dedup := st.dedup ++ [g],
            args := st.args ++ [mkArg tag v] }) := by
  constructor
  · rw [processPlain_cons_plain]
    simp only [if_neg hdash, hdup, Bool.false_eq_true, if_false]
    by_cases htn : tagNameOf tag = ""
    · simp [htn]
    · simp [htn]
  · intro htn
    have hdup' : g ∉ st.dedup := by simpa [htn] using hdup
    rw [processPlain_cons_plain]
    simp [htn, hdup']

/-- Witness for `column_quoting_iff_named_tag`: the test's "with only string
tag" field `F2 int (db:",string")`, emitted after column `"field_1"`. -/
theorem column_quoting_iff_named_tag_witness :
    tagNameOf ",string" ≠ "-" ∧
    (ScanState.mk "INSERT INTO \"t1\" (\"field_1\"" ["field_1"]
          [Arg.raw (.vstr "aaa")]).dedup.contains
        (if tagNameOf ",string" = "" then "F2" else tagNameOf ",string") = false ∧
    (tagNameOf ",string" = "" →
      processPlain false (.cons (.plain "F2" ",string" (.vint 1)) .nil)
          (ScanState.mk "INSERT INTO \"t1\" (\"field_1\"" ["field_1"] [Arg.raw (.vstr "aaa")]) =
        processPlain false .nil
          { w := "INSERT INTO \"t1\" (\"field_1\""
              ++ (if (ScanState.mk "INSERT INTO \"t1\" (\"field_1\"" ["field_1"]
                    [Arg.raw (.vstr "aaa")]).dedup.length ≠ 0 then "," else "") ++ "F2",
            dedup := ["field_1"] ++ ["F2"],
            args := [Arg.raw (.vstr "aaa")] ++ [mkArg ",string" (.vint 1)] }) :=
  ⟨by decide, by decide,
    (column_quoting_iff_named_tag "F2" ",string" (.vint 1) .nil
      (ScanState.mk "INSERT INTO \"t1\" (\"field_1\"" ["field_1"] [Arg.raw (.vstr "aaa")])
      (by decide) (by decide)).2⟩

/-! ### InTransaction (insert.go, pgx/v4 variant)

The transaction and its driver are abstracted by the outcomes of `Begin` and
`Commit`; the user function's behaviour is its outcome: a normal return with
an optional error, or a panic unwinding through `InTransaction`. -/

structure TxEnv where
  beginErr : Option String
  commitErr : Option String
deriving DecidableEq

inductive FnRes where
  | ok
  | err (e : String)
  | panics (msg : String)
deriving DecidableEq

/-- How a call to `InTransaction` ends: a normal return carrying the error
result, or a propagating panic. -/
inductive TxOutcome where
  | ret (e : Option String)
  | panicked (msg : String)
deriving DecidableEq

structure TxRun where
  outcome : TxOutcome
  rollbackCalled : Bool
  commitCalled : Bool
deriving DecidableEq

/-- The pgx/v4 `InTransaction` of the source (the variant with the `panicked`
flag and the deferred rollback), as a function of the environment and the
user function's outcome.  Control flow, mirrored from the source:
`tx, err := conn.Begin(ctx)`; on error return.  `panicked := true`; defer
`if panicked { tx.Rollback(ctx) }`.  `err = fn(tx)`; on error `goto end`.
`err = tx.Commit(ctx)`.  `end: panicked = false; return`.  Note that the
`goto end` path reaches `panicked = false` before returning, so the deferred
rollback does NOT run when `fn` returns an error; it runs only when `fn`
panics (the only path on which the return is reached with `panicked` still
true). -/
def InTransaction (env : TxEnv) (fr : FnRes) : TxRun :=
  match env.beginErr with
  | some e => ⟨.ret (some e), false, false⟩
  | none =>
    match fr with
    | .panics m => ⟨.panicked m, true, false⟩
    | .err e => ⟨.ret (some e), false, false⟩
    | .ok => ⟨.ret env.commitErr, false, true⟩

/-- The earlier `InTransaction` variant kept in the repository (the one
without the deferred rollback): `tx, err := conn.Begin(ctx)`; on error
return.  `err = fn(tx)`; on error `tx.Rollback(ctx); return`.
`return tx.Commit(ctx)`.  A panic in `fn` unwinds without any rollback. -/
def InTransactionPrev (env : TxEnv) (fr : FnRes) : TxRun :=
  match env.beginErr with
  | some e => ⟨.ret (some e), false, false⟩
  | none =>
    match fr with
    | .panics m => ⟨.panicked m, false, false⟩
    | .err e => ⟨.ret (some e), true, false⟩
    | .ok => ⟨.ret env.commitErr, false, true⟩

/-- C7, code bug: in the pgx/v4 `InTransaction`, when `Begin` succeeds and
`fn` returns an error, the error is returned with NO rollback and no commit
(the `goto end` sets `panicked = false` before the deferred rollback check),
contradicting the claim, the function's own doc comment ("handles commiting
and rollback on error") and the earlier variant; the panic path does roll
back, and the success path commits. -/
theorem inTransaction_error_path_no_rollback :
    InTransaction ⟨none, none⟩ (.err "boom") = ⟨.ret (some "boom"), false, false⟩ ∧
    InTransaction ⟨none, none⟩ (.panics "p") = ⟨.panicked "p", true, false⟩ ∧
    InTransaction ⟨none, none⟩ .ok = ⟨.ret none, false, true⟩ ∧
    InTransactionPrev ⟨none, none⟩ (.err "boom") = ⟨.ret (some "boom"), true, false⟩ := by
  decide

/-! ### Listen (listen.go, pgx/v4 variant)

The listener's callbacks are recorded as `Event`s in traces produced by pure
step functions: the synchronous part of `Listen` is a function of the
parse/connect/subscribe outcomes supplied by the driver; the receiver
goroutine's failure branch, the dispatch loop (with the debounce register
`pending`) and the reconnect supervisor are functions over explicit event
lists.  Callback presence flags model the optional callbacks being set. -/

structure ListenOpts where
  debounceInterval : Nat
  connectionURL : String
  channel : String
  onMsg : String → Option String
  hasOnError : Bool
  hasOnConnectionLoss : Bool
  hasOnReconnect : Bool

/-- Observable actions of the listener's components.  `msgCall` is an `OnMsg`
invocation; `errorCb`/`connLossCb`/`reconnectCb` are invocations of the
optional callbacks; `spawnPair` is the spawning of a fresh receiver/dispatch
goroutine pair by a successful `listen` call; `timerScheduled` is a
`time.AfterFunc` debounce timer; `backoffWait` is the supervisor's
`time.After` wait (in seconds); `reconnectSignal` is a send on the internal
`reconnect` channel. -/
inductive Event where
  | msgCall (payload : String)
  | errorCb (text : String)
  | connLossCb
  | reconnectCb
  | spawnPair
  | timerScheduled (payload : String) (interval : Nat)
  | backoffWait (seconds : Nat)
  | reconnectSignal
deriving DecidableEq

/-- The source's `handleError` closure: prepends `pg_util: ` and invokes
`OnError` when set, otherwise swallows the error. -/
def handleError (o : ListenOpts) (text : String) : List Event :=
  if o.hasOnError then [.errorCb ("pg_util: " ++ text)] else []

/-- `fmt.Errorf("listening on channel=%s msg=%s error=%s", ...)`. -/
def listenMsgErrText (ch msg e : String) : String :=
  "listening on channel=" ++ ch ++ " msg=" ++ msg ++ " error=" ++ e

/-- The source's `handle` closure: invoke `OnMsg` and report a handler error
through `handleError` with channel and payload context. -/
def handle (o : ListenOpts) (msg : String) : List Event :=
  .msgCall msg ::
    (match o.onMsg msg with
     | none => []
     | some e => handleError o (listenMsgErrText o.channel msg e))

/-- Outcomes of the driver calls made synchronously inside `Listen`:
`pgx.ParseConfig`, the initial `pgx.ConnectConfig`, and the
`conn.Exec("listen ...")` of the initial `listen` call (`some` = error). -/
structure Driver where
  parseResult : Option String
  connectResult : Option String
  execListenResult : Option String

/-- The synchronous part of `Listen`: parse the connection URL, establish the
initial connection, run the initial subscribe; return the first error, else
nil (the goroutines started on success return nothing to the caller). -/
def Listen (o : ListenOpts) (d : Driver) : Option String :=
  match d.parseResult with
  | some e => some e
  | none =>
    match d.connectResult with
    | some e => some e
    | none => d.execListenResult

/-- What the dispatch loop's `select` can wake up on: context cancellation,
a payload handed off by the receiver, or a debounce timer firing into
`runPending`. -/
inductive LoopEvent where
  | ctxDone
  | receive (msg : String)
  | runPending (msg : String)
deriving DecidableEq

/-- One iteration of the dispatch loop: returns the new `pending` set, the
emitted events, and whether the loop returned.  Mirrors the source's
`select` cases. -/
def dispatchStep (o : ListenOpts) (pending : List String) :
    LoopEvent → List String × List Event × Bool
  | .ctxDone => (pending, [], true)
  | .receive msg =>
    if o.debounceInterval = 0 then (pending, handle o msg, false)
    else if pending.contains msg then (pending, [], false)
    else (msg :: pending, [.timerScheduled msg o.debounceInterval], false)
  | .runPending msg => (pending.erase msg, handle o msg, false)

/-- The dispatch loop over a list of wakeups, stopping at cancellation. -/
def dispatchRun (o : ListenOpts) : List String → List LoopEvent → List Event
  | _, [] => []
  | pending, ev :: rest =>
    match dispatchStep o pending ev with
    | (p', out, stopped) => out ++ (if stopped then [] else dispatchRun o p' rest)

/-- `fmt.Errorf("wating for message channel=%s error=%s", ...)` (typo as in
the source). -/
def waitErrText (ch e : String) : String :=
  "wating for message channel=" ++ ch ++ " error=" ++ e

/-- The receiver goroutine's failure branch: when `conn.WaitForNotification`
returns an error the receiver cancels its child context, invokes
`OnConnectionLoss` when set, reports through `handleError`, and then selects
between the parent context being done and signalling the supervisor
(`reconnectDelivered` records which select case completed), before
terminating.  There is no other exit path that produces events. -/
def receiverOnWaitError (o : ListenOpts) (e : String) (reconnectDelivered : Bool) :
    List Event :=
  (if o.hasOnConnectionLoss then [.connLossCb] else []) ++
  handleError o (waitErrText o.channel e) ++
  (if reconnectDelivered then [.reconnectSignal] else [])

/-- The error text `ctx.Err()` carries once the caller's context is
cancelled; pgx's `WaitForNotification` returns it, so cancellation drives the
receiver into `receiverOnWaitError` with this error. -/
def cancelWaitErr : String := "context canceled"

/-- Outcome of one connect-and-subscribe attempt of the supervisor's retry
loop: `pgx.ConnectConfig` fails, the `listen` call fails, or both succeed. -/
inductive Attempt where
  | connectFail (e : String)
  | listenFail (e : String)
  | ok
deriving DecidableEq

/-- `fmt.Errorf("reconnecting channel=%s error=%s", ...)`. -/
def reconnErrText (ch e : String) : String :=
  "reconnecting channel=" ++ ch ++ " error=" ++ e

def attemptErr : Attempt → String
  | .connectFail e => e
  | .listenFail e => e
  | .ok => ""

/-- The supervisor's inner retry loop over a list of attempt outcomes, each
paired with whether the parent context was done during the post-attempt
backoff select.  A failed attempt reports through `handleError` and then
waits one second (`time.After(time.Second)`) unless cancellation fires during
the wait (then the supervisor returns); a successful attempt spawns a fresh
receiver/dispatch pair (inside `listen`) and invokes `OnReconnect` when set,
breaking out of the retry loop. -/
def reconnectLoop (o : ListenOpts) : List (Attempt × Bool) → List Event
  | [] => []
  | (.ok, _) :: _ => .spawnPair :: (if o.hasOnReconnect then [.reconnectCb] else [])
  | (.connectFail e, doneDuringWait) :: rest =>
    handleError o (reconnErrText o.channel e) ++
    (if doneDuringWait then [] else .backoffWait 1 :: reconnectLoop o rest)
  | (.listenFail e, doneDuringWait) :: rest =>
    handleError o (reconnErrText o.channel e) ++
    (if doneDuringWait then [] else .backoffWait 1 :: reconnectLoop o rest)

/-- The supervisor's outer `select`: if the parent context is done it returns
silently, otherwise a reconnect signal starts the retry loop. -/
def supervisorStep (o : ListenOpts) (parentDone : Bool)
    (attempts : List (Attempt × Bool)) : List Event :=
  if parentDone then [] else reconnectLoop o attempts

/-- The payloads delivered to `OnMsg` in a trace. -/
def msgCallsOf (tr : List Event) : List String :=
  tr.filterMap (fun ev => match ev with | .msgCall p => some p | _ => none)

/-- Substring containment. -/
def strContains (s t : String) : Prop := ∃ a b : String, s = a ++ (t ++ b)

/-- Concrete option set for witnesses: all callbacks registered, no
debouncing, handler always succeeds. -/
def oTest : ListenOpts :=
  { debounceInterval := 0, connectionURL := "postgres://u@h/db", channel := "test",
    onMsg := fun _ => none, hasOnError := true, hasOnConnectionLoss := true,
    hasOnReconnect := true }

/-- Like `oTest` with a 5-unit debounce interval. -/
def oTestDeb : ListenOpts := { oTest with debounceInterval := 5 }

/-- Like `oTest` but the handler fails on payload `"bad"`. -/
def oTestErr : ListenOpts :=
  { oTest with onMsg := fun m => if m = "bad" then some "boom" else none }

/-- `handle` delivers its payload to `OnMsg` exactly once: the only `msgCall`
in its trace is the payload itself. -/
theorem msgCallsOf_handle (o : ListenOpts) (m : String) : msgCallsOf (handle o m) = [m] := by
  cases h : o.onMsg m with
  | none => simp [handle, h, msgCallsOf]
  | some e =>
      cases hE : o.hasOnError <;>
        simp [handle, h, handleError, hE, msgCallsOf]

/-- C1: `Listen` returns an error synchronously exactly when parsing the
connection URL, the initial connection, or the initial subscribe fails; and
every event the receiver's failure branch or the supervisor's retry loop can
ever emit is a callback invocation (`OnConnectionLoss`/`OnError`/
`OnReconnect`) or internal coordination (reconnect signal, backoff timer,
goroutine spawn) — never a return value. -/
theorem listen_sync_error_iff (o : ListenOpts) (d : Driver) :
    (Listen o d ≠ none ↔
      (d.parseResult ≠ none ∨ d.connectResult ≠ none ∨ d.execListenResult ≠ none)) ∧
    (∀ (e : String) (rd : Bool) (ev : Event), ev ∈ receiverOnWaitError o e rd →
      ev = .connLossCb ∨ (∃ t, ev = .errorCb t) ∨ ev = .reconnectSignal) ∧
    (∀ (l : List (Attempt × Bool)) (ev : Event), ev ∈ reconnectLoop o l →
      (∃ t, ev = .errorCb t) ∨ ev = .backoffWait 1 ∨ ev = .spawnPair ∨ ev = .reconnectCb) := by
  refine ⟨?_, ?_, ?_⟩
  · cases hp : d.parseResult <;> cases hc : d.connectResult <;>
      cases he : d.execListenResult <;> simp [Listen, hp, hc, he]
  · intro e rd ev hev
    cases hcl : o.hasOnConnectionLoss <;> cases hE : o.hasOnError <;> cases rd <;>
      simp [receiverOnWaitError, handleError, hcl, hE] at hev <;> aesop
  · intro l
    induction l with
    | nil => intro ev hev; simp [reconnectLoop] at hev
    | cons hd tl ih =>
        intro ev hev
        obtain ⟨a, dw⟩ := hd
        cases a with
        | ok =>
            cases hR : o.hasOnReconnect <;>
              simp [reconnectLoop, hR] at hev <;> aesop
        | connectFail e =>
            cases hE : o.hasOnError <;> cases dw <;>
              simp [reconnectLoop, handleError, hE] at hev <;> aesop
        | listenFail e =>
            cases hE : o.hasOnError <;> cases dw <;>
              simp [reconnectLoop, handleError, hE] at hev <;> aesop

/-- Witness for `listen_sync_error_iff`: a failing initial connect yields a
synchronous error, and a concrete receiver-failure event is a callback. -/
theorem listen_sync_error_iff_witness :
    (Listen oTest ⟨none, some "conn refused", none⟩ ≠ none ↔
      ((⟨none, some "conn refused", none⟩ : Driver).parseResult ≠ none ∨
       (⟨none, some "conn refused", none⟩ : Driver).connectResult ≠ none ∨
       (⟨none, some "conn refused", none⟩ : Driver).execListenResult ≠ none)) ∧
    (Event.connLossCb ∈ receiverOnWaitError oTest "EOF" true ∧
      (Event.connLossCb = .connLossCb ∨ (∃ t, Event.connLossCb = .errorCb t) ∨
        Event.connLossCb = .reconnectSignal)) :=
  ⟨(listen_sync_error_iff oTest ⟨none, some "conn refused", none⟩).1,
    by decide,
    (listen_sync_error_iff oTest ⟨none, some "conn refused", none⟩).2.1 "EOF" true
      .connLossCb (by decide)⟩

/-- C2: with a non-zero debounce interval, a payload with no pending entry
gets an entry and a timer for the interval, with no immediate delivery; a
payload with a pending entry is dropped with no effect; and when the timer
fires, the entry is removed and the handler runs, invoking `OnMsg` exactly
once, with the payload that opened the window (the timer's payload is the
very payload that created the entry, by the `AfterFunc` closure). -/
theorem debounce_window (o : ListenOpts) (pending : List String) (p : String)
    (hd : o.debounceInterval ≠ 0) :
    (pending.contains p = false →
      dispatchStep o pending (.receive p) =
        (p :: pending, [.timerScheduled p o.debounceInterval], false)) ∧
    (pending.contains p = true →
      dispatchStep o pending (.receive p) = (pending, [], false)) ∧
    dispatchStep o pending (.runPending p) = (pending.erase p, handle o p, false) ∧
    (handle o p).head? = some (.msgCall p) ∧
    msgCallsOf (handle o p) = [p] := by
  refine ⟨?_, ?_, rfl, ?_, msgCallsOf_handle o p⟩
  · intro hmem
    have : p ∉ pending := by simpa using hmem
    simp [dispatchStep, hd, this]
  · intro hmem
    have : p ∈ pending := by simpa using hmem
    simp [dispatchStep, hd, this]
  · cases h : o.onMsg p <;> simp [handle, h]

/-- Witness for `debounce_window`: interval 5, payload `"a"`, starting with no
pending entry. -/
theorem debounce_window_witness :
    oTestDeb.debounceInterval ≠ 0 ∧
    (([] : List String).contains "a" = false →
      dispatchStep oTestDeb [] (.receive "a") =
        (["a"], [.timerScheduled "a" oTestDeb.debounceInterval], false)) ∧
    dispatchStep oTestDeb [] (.runPending "a") = ([].erase "a", handle oTestDeb "a", false) :=
  ⟨by decide,
    (debounce_window oTestDeb [] "a" (by decide)).1,
    (debounce_window oTestDeb [] "a" (by decide)).2.2.1⟩

/-- With debounce interval 0, the dispatch loop's trace over received
payloads is the concatenation of the per-payload `handle` traces, and the
delivered payloads are exactly the received ones, in order. -/
theorem dispatchRun_no_debounce (o : ListenOpts) (hd : o.debounceInterval = 0) :
    ∀ (msgs : List String) (pending : List String),
      dispatchRun o pending (msgs.map .receive) = msgs.flatMap (handle o) ∧
      msgCallsOf (dispatchRun o pending (msgs.map .receive)) = msgs := by
  have htr : ∀ (ms : List String) (pd : List String),
      dispatchRun o pd (ms.map .receive) = ms.flatMap (handle o) := by
    intro ms
    induction ms with
    | nil => intro pd; rfl
    | cons m rest ih =>
        intro pd
        simp only [List.map_cons, dispatchRun, dispatchStep, hd, if_pos]
        rw [ih pd]
        simp
  intro msgs pending
  refine ⟨htr msgs pending, ?_⟩
  rw [htr msgs pending]
  induction msgs with
  | nil => rfl
  | cons m rest ih =>
      simp only [List.flatMap_cons, msgCallsOf, List.filterMap_append]
      have h1 : msgCallsOf (handle o m) = [m] := msgCallsOf_handle o m
      simp only [msgCallsOf] at h1 ih
      rw [h1, ih]
      rfl

/-- C3: with debounce interval 0, the dispatch loop delivers every received
payload immediately and synchronously through `handle`, exactly once each and
in receipt order, with no suppression of duplicates. -/
theorem no_debounce_immediate_delivery (o : ListenOpts) (pending : List String)
    (msgs : List String) (hd : o.debounceInterval = 0) :
    dispatchRun o pending (msgs.map .receive) = msgs.flatMap (handle o) ∧
    msgCallsOf (dispatchRun o pending (msgs.map .receive)) = msgs :=
  dispatchRun_no_debounce o hd msgs pending

/-- Witness for `no_debounce_immediate_delivery`: two duplicate payloads are
both delivered, in order. -/
theorem no_debounce_immediate_delivery_witness :
    oTest.debounceInterval = 0 ∧
    msgCallsOf (dispatchRun oTest [] (["a", "a"].map .receive)) = ["a", "a"] :=
  ⟨rfl, (no_debounce_immediate_delivery oTest [] ["a", "a"] rfl).2⟩

/-- C4: when the handler returns an error for payload `p` and `OnError` is
set, the dispatch loop reports through `OnError` a message containing the
channel name, the payload and the underlying error text, and the loop
continues: the step does not stop the loop, and (without debouncing) the next
payload is still delivered. -/
theorem handler_error_reported_loop_continues (o : ListenOpts)
    (pending : List String) (p q e : String)
    (hE : o.hasOnError = true) (hm : o.onMsg p = some e) :
    handle o p = [.msgCall p, .errorCb ("pg_util: " ++ listenMsgErrText o.channel p e)] ∧
    strContains ("pg_util: " ++ listenMsgErrText o.channel p e) o.channel ∧
    strContains ("pg_util: " ++ listenMsgErrText o.channel p e) p ∧
    strContains ("pg_util: " ++ listenMsgErrText o.channel p e) e ∧
    (dispatchStep o pending (.receive p)).2.2 = false ∧
    (o.debounceInterval = 0 →
      msgCallsOf (dispatchRun o pending [.receive p, .receive q]) = [p, q]) := by
  refine ⟨?_, ?_, ?_, ?_, ?_, ?_⟩
  · simp [handle, hm, handleError, hE]
  · exact ⟨"pg_util: " ++ "listening on channel=", " msg=" ++ p ++ " error=" ++ e,
      by simp only [listenMsgErrText, String.append_assoc]⟩
  · exact ⟨"pg_util: " ++ ("listening on channel=" ++ (o.channel ++ " msg=")),
      " error=" ++ e, by simp only [listenMsgErrText, String.append_assoc]⟩
  · exact ⟨"pg_util: " ++ ("listening on channel=" ++ (o.channel ++ (" msg="
      ++ (p ++ " error=")))), "", by
        simp only [listenMsgErrText, String.append_assoc, String.append_empty]⟩
  · simp only [dispatchStep]
    split <;> simp <;> split <;> simp
  · intro hd
    exact (dispatchRun_no_debounce o hd [p, q] pending).2

/-- Witness for `handler_error_reported_loop_continues`: the failing payload
`"bad"` is reported with channel, payload and error text, and `"good"` is
still delivered right after it. -/
theorem handler_error_reported_loop_continues_witness :
    oTestErr.hasOnError = true ∧
    oTestErr.onMsg "bad" = some "boom" ∧
    (handle oTestErr "bad" =
      [.msgCall "bad", .errorCb ("pg_util: " ++ listenMsgErrText oTestErr.channel "bad" "boom")] ∧
    (oTestErr.debounceInterval = 0 →
      msgCallsOf (dispatchRun oTestErr [] [.receive "bad", .receive "good"]) = ["bad", "good"])) :=
  ⟨rfl, rfl,
    (handler_error_reported_loop_continues oTestErr [] "bad" "good" "boom" rfl rfl).1,
    (handler_error_reported_loop_continues oTestErr [] "bad" "good" "boom" rfl rfl).2.2.2.2.2⟩

/-- No `OnReconnect` invocation occurs among the events of failing attempts. -/
theorem count_reconnectCb_fail_trace (o : ListenOpts) (fails : List Attempt) :
    ((fails.flatMap (fun a =>
        [Event.errorCb ("pg_util: " ++ reconnErrText o.channel (attemptErr a)),
         .backoffWait 1])).count Event.reconnectCb) = 0 := by
  induction fails with
  | nil => rfl
  | cons a rest ih => simp [List.flatMap_cons, List.count_append, ih, List.count_cons]

/-- C5: every failed connect-and-subscribe attempt of the supervisor is
reported through `OnError` and followed by a fixed one-second backoff wait
before the next attempt (abandoned only when cancellation fires during the
wait, in which case the supervisor stops); with only failing attempts the
loop keeps retrying, emitting one report and one backoff per failure and
never invoking `OnReconnect`; and the first successful attempt spawns a fresh
receiver/dispatch pair and invokes `OnReconnect` exactly once. -/
theorem reconnect_backoff_and_single_reconnect (o : ListenOpts) (fails : List Attempt)
    (hE : o.hasOnError = true) (hR : o.hasOnReconnect = true)
    (hf : ∀ a ∈ fails, a ≠ .ok) :
    reconnectLoop o ((fails.map (fun a => (a, false))) ++ [(.ok, false)]) =
      (fails.flatMap (fun a =>
        [.errorCb ("pg_util: " ++ reconnErrText o.channel (attemptErr a)), .backoffWait 1]))
        ++ [.spawnPair, .reconnectCb] ∧
    (reconnectLoop o ((fails.map (fun a => (a, false))) ++ [(.ok, false)])).count
        Event.reconnectCb = 1 ∧
    reconnectLoop o (fails.map (fun a => (a, false))) =
      fails.flatMap (fun a =>
        [.errorCb ("pg_util: " ++ reconnErrText o.channel (attemptErr a)), .backoffWait 1]) ∧
    (∀ (e : String) (rest : List (Attempt × Bool)),
      reconnectLoop o ((.connectFail e, true) :: rest) =
        [.errorCb ("pg_util: " ++ reconnErrText o.channel e)]) := by
  have hmain : ∀ (fs : List Attempt), (∀ a ∈ fs, a ≠ .ok) →
      reconnectLoop o ((fs.map (fun a => (a, false))) ++ [(.ok, false)]) =
        (fs.flatMap (fun a =>
          [.errorCb ("pg_util: " ++ reconnErrText o.channel (attemptErr a)), .backoffWait 1]))
          ++ [.spawnPair, .reconnectCb] := by
    intro fs
    induction fs with
    | nil => intro _; simp [reconnectLoop, hR]
    | cons a rest ih =>
        intro hfa
        have ha : a ≠ .ok := hfa a (by simp)
        have ih' := ih (fun x hx => hfa x (by simp [hx]))
        cases a with
        | ok => exact absurd rfl ha
        | connectFail e => simp [reconnectLoop, handleError, hE, attemptErr, ih']
        | listenFail e => simp [reconnectLoop, handleError, hE, attemptErr, ih']
  have hfail : ∀ (fs : List Attempt), (∀ a ∈ fs, a ≠ .ok) →
      reconnectLoop o (fs.map (fun a => (a, false))) =
        fs.flatMap (fun a =>
          [.errorCb ("pg_util: " ++ reconnErrText o.channel (attemptErr a)), .backoffWait 1]) := by
    intro fs
    induction fs with
    | nil => intro _; rfl
    | cons a rest ih =>
        intro hfa
        have ha : a ≠ .ok := hfa a (by simp)
        have ih' := ih (fun x hx => hfa x (by simp [hx]))
        cases a with
        | ok => exact absurd rfl ha
        | connectFail e => simp [reconnectLoop, handleError, hE, attemptErr, ih']
        | listenFail e => simp [reconnectLoop, handleError, hE, attemptErr, ih']
  refine ⟨hmain fails hf, ?_, hfail fails hf, ?_⟩
  · rw [hmain fails hf]
    simp [List.count_append, count_reconnectCb_fail_trace o fails, List.count_cons]
  · intro e rest
    simp [reconnectLoop, handleError, hE]

/-- Witness for `reconnect_backoff_and_single_reconnect`: two failed attempts
followed by a success. -/
theorem reconnect_backoff_and_single_reconnect_witness :
    oTest.hasOnError = true ∧ oTest.hasOnReconnect = true ∧
    (∀ a ∈ [Attempt.connectFail "refused", Attempt.listenFail "lost"], a ≠ .ok) ∧
    (reconnectLoop oTest
        (([Attempt.connectFail "refused", Attempt.listenFail "lost"].map
          (fun a => (a, false))) ++ [(.ok, false)])).count Event.reconnectCb = 1 :=
  ⟨rfl, rfl, by decide,
    (reconnect_backoff_and_single_reconnect oTest
      [Attempt.connectFail "refused", Attempt.listenFail "lost"] rfl rfl
      (by decide)).2.1⟩

/-- C6, counterexample: cancellation is NOT silent.  When the caller's
context is cancelled, `conn.WaitForNotification` returns the context's error,
and the receiver's failure branch — which does not distinguish cancellation
from connection loss — invokes `OnConnectionLoss` and `OnError` (here with
all callbacks registered), contradicting the claim that shutdown triggers
neither. -/
theorem cancellation_fires_callbacks :
    Event.connLossCb ∈ receiverOnWaitError oTest cancelWaitErr false ∧
    Event.errorCb ("pg_util: " ++ waitErrText oTest.channel cancelWaitErr)
      ∈ receiverOnWaitError oTest cancelWaitErr false := by decide

/-- C6 (amended): when cancellation fires, the dispatch loop stops silently —
it emits nothing and ignores any later wakeups, so no further `OnMsg`
deliveries occur — and the supervisor returns silently; the receiver,
however, observes the cancelled wait as an error, so it invokes
`OnConnectionLoss` and `OnError` (when set) once during shutdown, while
delivering no message. -/
theorem cancellation_shutdown (o : ListenOpts) (pending : List String)
    (rest : List LoopEvent) (e : String) (rd : Bool) :
    dispatchRun o pending (.ctxDone :: rest) = [] ∧
    (∀ attempts, supervisorStep o true attempts = []) ∧
    msgCallsOf (receiverOnWaitError o e rd) = [] ∧
    (o.hasOnConnectionLoss = true →
      (receiverOnWaitError o e rd).count Event.connLossCb = 1) ∧
    (o.hasOnError = true →
      (receiverOnWaitError o e rd).count
        (Event.errorCb ("pg_util: " ++ waitErrText o.channel e)) = 1) := by
  refine ⟨?_, fun _ => rfl, ?_, ?_, ?_⟩
  · simp [dispatchRun, dispatchStep]
  · cases hcl : o.hasOnConnectionLoss <;> cases hE : o.hasOnError <;> cases rd <;>
      simp [receiverOnWaitError, handleError, hcl, hE, msgCallsOf]
  · intro hcl
    cases hE : o.hasOnError <;> cases rd <;>
      simp [receiverOnWaitError, handleError, hcl, hE, List.count_append, List.count_cons]
  · intro hE
    cases hcl : o.hasOnConnectionLoss <;> cases rd <;>
      simp [receiverOnWaitError, handleError, hcl, hE, List.count_append, List.count_cons]

/-- Witness for `cancellation_shutdown`: concrete cancelled run with all
callbacks registered. -/
theorem cancellation_shutdown_witness :
    dispatchRun oTest [] (.ctxDone :: [.receive "late"]) = [] ∧
    msgCallsOf (receiverOnWaitError oTest cancelWaitErr false) = [] ∧
    (oTest.hasOnConnectionLoss = true →
      (receiverOnWaitError oTest cancelWaitErr false).count Event.connLossCb = 1) :=
  ⟨(cancellation_shutdown oTest [] [.receive "late"] cancelWaitErr false).1,
    (cancellation_shutdown oTest [] [.receive "late"] cancelWaitErr false).2.2.1,
    (cancellation_shutdown oTest [] [.receive "late"] cancelWaitErr false).2.2.2.1⟩
